import Mathlib

/-!
Shallow embedding of the `upstage-silverforge-agent` repository
(`src/silverforge/core.py` and `src/silverforge/curator.py`).

Python strings are modelled as `List Char`; a document is split into lines
on the newline character exactly as Python's `str.split("\n")` does.
Python's `re` patterns used by the code are deterministic (no essential
backtracking), so each is translated into an equivalent executable
function on `List Char`; the translation of each pattern is noted at its
definition.  The external LLM collaborator and the `jiwer` library are
modelled as oracles passed in as parameters, since their behaviour is not
part of this repository.
-/

namespace Silverforge

/-- Python `str.split("\n")`: `"".split("\n") = [""]`, and every newline
starts a new (possibly empty) line. -/
def splitLines : List Char → List (List Char)
  | [] => [[]]
  | c :: rest =>
    if c = '\n' then [] :: splitLines rest
    else
      match splitLines rest with
      | h :: t => (c :: h) :: t
      | [] => [[c]]

/-- Python `"\n".join(lines)`. -/
def joinLines : List (List Char) → List Char
  | [] => []
  | [l] => l
  | l :: ls => l ++ '\n' :: joinLines ls

/-- Python's whitespace set, shared by `str.isspace()`, `str.strip()`,
`str.split()` and the `re` class `\s` on `str` patterns (CPython uses the
same `Py_UNICODE_ISSPACE` table for all of them): U+0009–U+000D,
U+001C–U+001F, space, U+0085, U+00A0, U+1680, U+2000–U+200A, U+2028,
U+2029, U+202F, U+205F and U+3000. -/
def pyIsSpace (c : Char) : Bool :=
  let n := c.toNat
  (0x09 ≤ n && n ≤ 0x0D) || (0x1C ≤ n && n ≤ 0x1F) || n == 0x20 || n == 0x85 ||
    n == 0xA0 || n == 0x1680 || (0x2000 ≤ n && n ≤ 0x200A) || n == 0x2028 ||
    n == 0x2029 || n == 0x202F || n == 0x205F || n == 0x3000

/-- The code points of Unicode general category `Nd` (Unicode 14.0, the
table of CPython 3.11), as closed ranges. -/
def ndRanges : List (Nat × Nat) :=
  [(0x30, 0x39), (0x660, 0x669), (0x6F0, 0x6F9), (0x7C0, 0x7C9), (0x966, 0x96F),
   (0x9E6, 0x9EF), (0xA66, 0xA6F), (0xAE6, 0xAEF), (0xB66, 0xB6F), (0xBE6, 0xBEF),
   (0xC66, 0xC6F), (0xCE6, 0xCEF), (0xD66, 0xD6F), (0xDE6, 0xDEF), (0xE50, 0xE59),
   (0xED0, 0xED9), (0xF20, 0xF29), (0x1040, 0x1049), (0x1090, 0x1099),
   (0x17E0, 0x17E9), (0x1810, 0x1819), (0x1946, 0x194F), (0x19D0, 0x19D9),
   (0x1A80, 0x1A89), (0x1A90, 0x1A99), (0x1B50, 0x1B59), (0x1BB0, 0x1BB9),
   (0x1C40, 0x1C49), (0x1C50, 0x1C59), (0xA620, 0xA629), (0xA8D0, 0xA8D9),
   (0xA900, 0xA909), (0xA9D0, 0xA9D9), (0xA9F0, 0xA9F9), (0xAA50, 0xAA59),
   (0xABF0, 0xABF9), (0xFF10, 0xFF19), (0x104A0, 0x104A9), (0x10D30, 0x10D39),
   (0x11066, 0x1106F), (0x110F0, 0x110F9), (0x11136, 0x1113F), (0x111D0, 0x111D9),
   (0x112F0, 0x112F9), (0x11450, 0x11459), (0x114D0, 0x114D9), (0x11650, 0x11659),
   (0x116C0, 0x116C9), (0x11730, 0x11739), (0x118E0, 0x118E9), (0x11950, 0x11959),
   (0x11C50, 0x11C59), (0x11D50, 0x11D59), (0x11DA0, 0x11DA9), (0x16A60, 0x16A69),
   (0x16AC0, 0x16AC9), (0x16B50, 0x16B59), (0x1D7CE, 0x1D7FF), (0x1E140, 0x1E149),
   (0x1E2F0, 0x1E2F9), (0x1E950, 0x1E959), (0x1FBF0, 0x1FBF9)]

/-- The `re` class `\d` on `str` patterns: Unicode decimal digits
(general category `Nd`). -/
def pyIsDigit (c : Char) : Bool :=
  ndRanges.any fun r => r.1 ≤ c.toNat && c.toNat ≤ r.2

/-- Python `str.lower()`, character-wise, as far as the comparison against
the ASCII-only `special_h2` strings can observe it: ASCII letters are
lowercased and U+212A (KELVIN SIGN) maps to `k` — the unique non-ASCII
character whose Python lowercase lands in ASCII.  Every other character is
left unchanged; any divergence from `str.lower()` there maps a non-ASCII
character to a non-ASCII result on both sides (the one expanding mapping,
`İ`, keeps a non-ASCII combining dot), so membership in `special_h2` is
decided identically. -/
def pyLowerChar (c : Char) : Char :=
  if c = '\u212A' then 'k' else c.toLower

/-- Python `str.strip()` (whitespace trim on both sides). -/
def trimList (cs : List Char) : List Char :=
  ((cs.dropWhile pyIsSpace).reverse.dropWhile pyIsSpace).reverse

/-- `\d+` at the head of the input: requires at least one digit and returns
the remainder after the maximal digit run; `none` if the head is not a
digit. -/
def afterDigits : List Char → Option (List Char)
  | c :: rest => if pyIsDigit c then some (rest.dropWhile pyIsDigit) else none
  | [] => none

/-- Python `re.match(r"^\d+\.\d+\.\d+", s)` as a Boolean test. -/
def matchD3 (cs : List Char) : Bool :=
  match afterDigits cs with
  | some (c :: r) =>
    c == '.' &&
      (match afterDigits r with
       | some (c2 :: r2) => c2 == '.' && (afterDigits r2).isSome
       | _ => false)
  | _ => false

/-- Python `re.match(r"^\d+\.\d+", s)` as a Boolean test. -/
def matchD2 (cs : List Char) : Bool :=
  match afterDigits cs with
  | some (c :: r) => c == '.' && (afterDigits r).isSome
  | _ => false

/-- Python `re.match(r"^\d+\.?\s", s)` as a Boolean test: digits, an
optional period, then a mandatory whitespace character (when the character
after the digit run is a period the optional group must consume it, since
a period is not whitespace). -/
def matchNumSection (cs : List Char) : Bool :=
  match afterDigits cs with
  | some (c :: r) =>
    if c == '.' then
      match r with
      | c2 :: _ => pyIsSpace c2
      | [] => false
    else pyIsSpace c
  | _ => false

/-- The `special_h2` list of `_detect_heading_level`. -/
def specialH2 : List (List Char) :=
  [String.toList "abstract",
   String.toList "introduction",
   String.toList "conclusion",
   String.toList "references",
   String.toList "acknowledgments",
   String.toList "acknowledgements",
   String.toList "appendix",
   String.toList "related work",
   String.toList "background",
   String.toList "methodology",
   String.toList "methods",
   String.toList "results",
   String.toList "discussion",
   String.toList "experiments",
   String.toList "evaluation"]

/-- `core._detect_heading_level(content, title_found)`. -/
def detect_heading_level (content : List Char) (title_found : Bool) : Nat :=
  let s := trimList content
  if matchD3 s then 4
  else if matchD2 s then 3
  else if matchNumSection s then 2
  else if specialH2.contains (s.map pyLowerChar) then 2
  else if !title_found then 1
  else 2

/-- The heading text extracted by `re.match(r"^(#+)\s*(.+)$", line)` as
`group(2).strip()`, for a newline-free line on which the match succeeds:
when something follows the maximal `#` run, greediness makes `group(1)`
that whole run, `\s*` plus `strip()` make the content the remainder
stripped; when the line consists of `#` characters only (at least two),
`(#+)` backtracks by exactly one `#` and `group(2)` is that single `#`. -/
def headingText (l : List Char) : List Char :=
  if (l.dropWhile fun c => c == '#').isEmpty then ['#']
  else trimList (l.dropWhile fun c => c == '#')

/-- One iteration of the loop body of `core.refine_headings`.
The line is rewritten only when it starts with `#` and
`re.match(r"^(#+)\s*(.+)$", line)` succeeds; on a newline-free line that
starts with `#` the match succeeds exactly when the line has at least two
characters (`(#+)` needs one `#` and `(.+)` one further character, with
backtracking on all-`#` lines), and `group(2).strip()` is `headingText`. -/
def processLine (l : List Char) (title_found : Bool) : List Char × Bool :=
  if l.head? = some '#' ∧ 2 ≤ l.length then
    let content := headingText l
    let lvl := detect_heading_level content title_found
    (List.replicate lvl '#' ++ ' ' :: content, title_found || lvl == 1)
  else (l, title_found)

/-- The loop of `core.refine_headings`: the refined lines together with the
final value of the `title_found` flag. -/
def refineAux : List (List Char) → Bool → List (List Char) × Bool
  | [], tf => ([], tf)
  | l :: ls, tf =>
    let p := processLine l tf
    let r := refineAux ls p.2
    (p.1 :: r.1, r.2)

/-- The refined lines of `core.refine_headings` for a given initial flag. -/
def refineLines (ls : List (List Char)) (tf : Bool) : List (List Char) :=
  (refineAux ls tf).1

/-- `core.refine_headings(markdown)`: the flag starts `False`. -/
def refine_headings (markdown : List Char) : List Char :=
  joinLines (refineLines (splitLines markdown) false)

/-! ## `curator.evaluate_structure` -/

/-- Length of the maximal leading `#` run of a line
(Python `re.match(r"^(#+)", line)` after a `startswith("#")` check; the
run is empty exactly when the line does not start with `#`). -/
def markerLen (l : List Char) : Nat :=
  (l.takeWhile (fun c => c == '#')).length

/-- The sequence `heading_levels` of `evaluate_structure`: for each line
that starts with `#`, its marker length, kept only when at most 4. -/
def headingLevels (lines : List (List Char)) : List Nat :=
  lines.filterMap (fun l =>
    if 1 ≤ markerLen l ∧ markerLen l ≤ 4 then some (markerLen l) else none)

/-- The heading-order loop of `evaluate_structure`: the first adjacent pair
whose second member exceeds the first by more than one, if any (the Python
loop breaks at the first such pair). -/
def firstJump : List Nat → Option (Nat × Nat)
  | a :: b :: t => if a + 1 < b then some (a, b) else firstJump (b :: t)
  | _ => none

/-- The `heading_count` dictionary of `evaluate_structure`. -/
structure HeadingCount where
  h1 : Nat
  h2 : Nat
  h3 : Nat
  h4 : Nat
deriving DecidableEq

/-- An entry of the `issues` list of `evaluate_structure`, abstracting the
three Korean message templates of the source:
`headingJump a b` = `"Heading 레벨 점프: H{a} -> H{b}"`,
`tableMismatch a b` = `"테이블 열 개수 불일치: {a} vs {b}"`,
`equationOdd` = `"수식 블록 ($$$) 짝이 맞지 않음"`. -/
inductive Issue where
  | headingJump (a b : Nat)
  | tableMismatch (a b : Nat)
  | equationOdd
deriving DecidableEq

/-- Python `re.match(r"^\|[\s\-:|]+\|$", s)` as a Boolean test: the string
starts and ends with `|`, has length at least 3, and every character
strictly between is whitespace, `-`, `:` or `|`. -/
def isSepLine (l : List Char) : Bool :=
  3 ≤ l.length && l.head? == some '|' && l.getLast? == some '|' &&
    ((l.drop 1).dropLast.all fun c => pyIsSpace c || c == '-' || c == ':' || c == '|')

/-- The column-consistency loop of `evaluate_structure` over the table
lines after the first: the first `(expected, got)` mismatch, if any
(the Python loop breaks at the first mismatch). -/
def tableCheckAux (cols : Nat) : List (List Char) → Option (Nat × Nat)
  | [] => none
  | l :: ls =>
    let c := l.count '|'
    if c ≠ cols ∧ trimList l ≠ String.toList "|---|" ∧ isSepLine (trimList l) = false then
      some (cols, c)
    else tableCheckAux cols ls

/-- The column-consistency check of `evaluate_structure`:
`current_table_cols` is set from the first table line and never updated. -/
def tableCheck : List (List Char) → Option (Nat × Nat)
  | [] => none
  | t0 :: rest => tableCheckAux (t0.count '|') rest

/-- The table-group counting loop of `evaluate_structure` (`in_table`
flag): number of maximal runs of lines whose stripped form starts
with `|`. -/
def countTablesAux : List (List Char) → Bool → Nat
  | [], _ => 0
  | l :: ls, inT =>
    if (trimList l).head? = some '|' then
      (if inT then 0 else 1) + countTablesAux ls true
    else countTablesAux ls false

/-- Python `len(re.findall(r"\$\$", s))`: the number of non-overlapping
occurrences of `$$`, scanning left to right. -/
def countDD : List Char → Nat
  | '$' :: '$' :: rest => countDD rest + 1
  | _ :: rest => countDD rest
  | [] => 0

/-- The dictionary returned by `curator.evaluate_structure`. -/
structure StructReport where
  heading_count : HeadingCount
  heading_order_valid : Bool
  table_count : Nat
  table_valid : Bool
  equation_count : Nat
  equation_valid : Bool
  issues : List Issue
  pass : Bool

/-- `curator.evaluate_structure(silver_md)`. -/
def evaluate_structure (silver_md : List Char) : StructReport :=
  let lines := splitLines silver_md
  let levels := headingLevels lines
  let jump := firstJump levels
  let tableLines := lines.filter (fun l => (trimList l).head? == some '|')
  let mismatch := tableCheck tableLines
  let dd := countDD silver_md
  { heading_count := ⟨levels.count 1, levels.count 2, levels.count 3, levels.count 4⟩
    heading_order_valid := jump.isNone
    table_count := if tableLines.isEmpty then 0 else countTablesAux lines false
    table_valid := mismatch.isNone
    equation_count := dd / 2
    equation_valid := dd % 2 == 0
    issues :=
      (match jump with | some (a, b) => [Issue.headingJump a b] | none => []) ++
      (match mismatch with | some (a, b) => [Issue.tableMismatch a b] | none => []) ++
      (if dd % 2 == 0 then [] else [Issue.equationOdd])
    pass := jump.isNone && mismatch.isNone && (dd % 2 == 0) }

/-! ## `curator.evaluate_text_quality` -/

/-- The dictionary returned by `curator.evaluate_text_quality`; the `cer`
and `wer` keys are present only when computed. -/
structure TextReport where
  char_count : Nat
  word_count : Nat
  cer : Option Rat
  wer : Option Rat
  pass : Bool

/-- Python `len(s.split())`: number of maximal non-whitespace runs. -/
def wordCountAux : List Char → Bool → Nat
  | [], _ => 0
  | c :: rest, inW =>
    if pyIsSpace c then wordCountAux rest false
    else (if inW then 0 else 1) + wordCountAux rest true

def wordCount (cs : List Char) : Nat := wordCountAux cs false

/-- `curator.evaluate_text_quality(silver_md, original_text)`.

The `jiwer` library is modelled as an oracle `jiwerO` computing the
`(cer, wer)` pair; `none` models the `ImportError` branch, in which the
partially built result (with `pass = True` and no `cer`/`wer`) is
returned.  `original = some []` models the falsy empty string. -/
def evaluate_text_quality (jiwerO : Option (List Char → List Char → Rat × Rat))
    (silver_md : List Char) (original : Option (List Char)) : TextReport :=
  let base : TextReport := ⟨silver_md.length, wordCount silver_md, none, none, true⟩
  match original with
  | none => base
  | some o =>
    if o.isEmpty then base
    else
      match jiwerO with
      | none => base
      | some f =>
        let cw := f o silver_md
        ⟨silver_md.length, wordCount silver_md, some cw.1, some cw.2,
          decide (cw.1 < (15 : Rat) / 100)⟩

/-! ## `curator.evaluate_semantic` -/

/-- The JSON object parsed from the LLM response.  Scores are untrusted:
a score key may be missing (`none`) or hold an arbitrary integer. -/
structure SemanticJson where
  structure_score : Option Int
  completeness_score : Option Int
  coherence_score : Option Int
  overall_score : Option Int
  issues : List String
  recommendation : String

/-- Outcome of one call to the external collaborator, as observed by
`evaluate_semantic` after response post-processing: a successfully parsed
JSON object, a `json.JSONDecodeError`, or any other exception. -/
inductive LLMOutcome where
  | json (r : SemanticJson)
  | parseError (raw : String)
  | failure (msg : String)

/-- The dictionary returned by `curator.evaluate_semantic`. -/
structure SemanticReport where
  structure_score : Option Int
  completeness_score : Option Int
  coherence_score : Option Int
  overall_score : Option Int
  issues : List String
  recommendation : String
  pass : Bool

/-- Python truthiness of `UPSTAGE_API_KEY`: configured iff present and
non-empty. -/
def isConfigured : Option (List Char) → Bool
  | none => false
  | some k => !k.isEmpty

/-- The document truncation of `evaluate_semantic`
(`silver_md[:max_chars]`, plus an elision marker when truncated). -/
def truncateDoc (silver_md : List Char) (max_chars : Nat) : List Char :=
  if max_chars < silver_md.length then
    silver_md.take max_chars ++ String.toList "\n\n... (문서 일부 생략)"
  else silver_md.take max_chars

/-- `curator.evaluate_semantic(silver_md, max_chars)`, parameterised by the
configured credential and by an oracle `llm` for the external collaborator
(applied to the truncated document that the prompt embeds).  The second
component of the result counts the outbound calls made. -/
def evaluate_semantic (apiKey : Option (List Char)) (llm : List Char → LLMOutcome)
    (silver_md : List Char) (max_chars : Nat) : SemanticReport × Nat :=
  if isConfigured apiKey = false then
    (⟨some 0, some 0, some 0, some 0,
      ["UPSTAGE_API_KEY not configured"], "API KEY 설정 필요", false⟩, 0)
  else
    match llm (truncateDoc silver_md max_chars) with
    | .json r =>
      (⟨r.structure_score, r.completeness_score, r.coherence_score, r.overall_score,
        r.issues, r.recommendation, decide ((70 : Int) ≤ r.overall_score.getD 0)⟩, 1)
    | .parseError _ =>
      (⟨some 0, some 0, some 0, some 0,
        ["LLM 응답 파싱 실패"], "수동 검토 필요", false⟩, 1)
    | .failure m =>
      (⟨some 0, some 0, some 0, some 0,
        [String.append "평가 중 오류: " m], "수동 검토 필요", false⟩, 1)

/-! ## `curator.curate` -/

/-- The dictionary returned by `curator.curate`. -/
structure CurateReport where
  pass : Bool
  text_quality : TextReport
  structure_quality : StructReport
  semantic_quality : SemanticReport
  overall_score : Int
  recommendation : String

/-- `curator.curate(silver_md, original_text)`, parameterised by the
credential and the two external oracles. -/
def curate (apiKey : Option (List Char)) (llm : List Char → LLMOutcome)
    (jiwerO : Option (List Char → List Char → Rat × Rat))
    (silver_md : List Char) (original : Option (List Char)) : CurateReport :=
  let text_quality := evaluate_text_quality jiwerO silver_md original
  let structure_quality := evaluate_structure silver_md
  let semantic_quality := (evaluate_semantic apiKey llm silver_md 3000).1
  let all_pass := text_quality.pass && structure_quality.pass && semantic_quality.pass
  let semantic_score : Int := semantic_quality.overall_score.getD 0
  let structure_bonus : Int := if structure_quality.pass then 10 else 0
  let text_bonus : Int := if text_quality.pass then 10 else 0
  let overall_score := min 100 (semantic_score + structure_bonus + text_bonus)
  let recommendation :=
    if all_pass then "청킹 가능 - 모든 검사 통과"
    else if structure_quality.pass && text_quality.pass then "청킹 가능 - 의미론적 검토 권장"
    else "수정 필요 - 구조/텍스트 문제 발견"
  ⟨all_pass, text_quality, structure_quality, semantic_quality, overall_score, recommendation⟩

/-! ## Predicates used in claim statements -/

/-- An output line carrying an assigned depth-1 marker: it starts with a
single `#` followed by a space.  In the output of `refineLines` exactly
the lines rewritten with detected level 1 have this shape (pass-through
heading lines consist of `#` characters only). -/
def isH1line (l : List Char) : Bool :=
  l.take 2 == ['#', ' ']

/-- Recogniser for heading-jump issues. -/
def isJumpIssue : Issue → Bool
  | .headingJump _ _ => true
  | _ => false

/-- A collaborator oracle whose JSON answer carries an untrusted negative
overall score. -/
def llmNeg : List Char → LLMOutcome :=
  fun _ => LLMOutcome.json ⟨some 0, some 0, some 0, some (-50), [], ""⟩

end Silverforge

namespace Silverforge

/-! ## Helper lemmas -/

theorem matchD3_matchD2 (cs : List Char) (h : matchD3 cs = true) : matchD2 cs = true := by
  unfold matchD3 at h
  unfold matchD2
  cases hd : afterDigits cs with
  | none => rw [hd] at h; exact Bool.noConfusion h
  | some r =>
    cases r with
    | nil => rw [hd] at h; exact Bool.noConfusion h
    | cons c r' =>
      rw [hd] at h
      have h' : (c == '.' &&
          (match afterDigits r' with
           | some (c2 :: r2) => c2 == '.' && (afterDigits r2).isSome
           | _ => false)) = true := h
      show (c == '.' && (afterDigits r').isSome) = true
      simp only [Bool.and_eq_true] at h' ⊢
      obtain ⟨hc, hrest⟩ := h'
      refine ⟨hc, ?_⟩
      cases hd2 : afterDigits r' with
      | none => rw [hd2] at hrest; exact Bool.noConfusion hrest
      | some r2 => simp

theorem detect_heading_level_range (content : List Char) (tf : Bool) :
    1 ≤ detect_heading_level content tf ∧ detect_heading_level content tf ≤ 4 := by
  simp only [detect_heading_level]
  repeat' split
  all_goals omega

theorem detect_heading_level_ne_one (content : List Char) :
    detect_heading_level content true ≠ 1 := by
  simp only [detect_heading_level]
  repeat' split
  all_goals simp_all

/-! ## Claims C1, C2, C7, C8, C9, C10 -/

/-- C1, counterexample: with the structural and text checks passing and an
untrusted semantic overall score of `-50`, `curate` reports an overall
score of `-30`, which is not within `[0,100]`. -/
theorem curate_score_not_lower_clamped :
    (curate (some ['k']) llmNeg none [] none).overall_score = -30 ∧
    (curate (some ['k']) llmNeg none [] none).overall_score < 0 := by decide

/-- C1, amended: the overall score returned by `curate` always equals
`min 100 (semantic overall score + structural bonus + text bonus)`, hence
never exceeds 100; it lies within `[0,100]` whenever the semantic overall
score is nonnegative, but an untrusted negative semantic score is not
clamped from below. -/
theorem curate_overall_score_formula (apiKey : Option (List Char))
    (llm : List Char → LLMOutcome) (jiwerO : Option (List Char → List Char → Rat × Rat))
    (silver_md : List Char) (original : Option (List Char)) :
    (curate apiKey llm jiwerO silver_md original).overall_score =
      min 100 (((evaluate_semantic apiKey llm silver_md 3000).1).overall_score.getD 0 +
        (if (evaluate_structure silver_md).pass then 10 else 0) +
        (if (evaluate_text_quality jiwerO silver_md original).pass then 10 else 0)) ∧
    (curate apiKey llm jiwerO silver_md original).overall_score ≤ 100 ∧
    (0 ≤ ((evaluate_semantic apiKey llm silver_md 3000).1).overall_score.getD 0 →
      0 ≤ (curate apiKey llm jiwerO silver_md original).overall_score) := by
  have h1 : (curate apiKey llm jiwerO silver_md original).overall_score =
      min 100 (((evaluate_semantic apiKey llm silver_md 3000).1).overall_score.getD 0 +
        (if (evaluate_structure silver_md).pass then 10 else 0) +
        (if (evaluate_text_quality jiwerO silver_md original).pass then 10 else 0)) := rfl
  refine ⟨h1, ?_, ?_⟩
  · rw [h1]; exact min_le_left _ _
  · intro hs
    rw [h1]
    refine le_min (by norm_num) ?_
    have hb1 : (0 : Int) ≤ (if (evaluate_structure silver_md).pass then 10 else 0) := by
      split <;> norm_num
    have hb2 : (0 : Int) ≤ (if (evaluate_text_quality jiwerO silver_md original).pass then 10 else 0) := by
      split <;> norm_num
    linarith

/-- C1, witness for the amended theorem at a concrete input. -/
theorem curate_overall_score_formula_witness :
    0 ≤ (((evaluate_semantic none llmNeg [] 3000).1).overall_score.getD 0) ∧
    0 ≤ (curate none llmNeg none [] none).overall_score :=
  ⟨by decide, (curate_overall_score_formula none llmNeg none [] none).2.2 (by decide)⟩

/-- C2, counterexample: the heading text `"3"` begins with an integer, yet
`_detect_heading_level` classifies it as the depth-1 title when no title
has been found, and `refine_headings` leaves `"# 3"` at depth 1. -/
theorem bare_integer_heading_is_title :
    detect_heading_level ['3'] false = 1 ∧
    refineLines [['#', ' ', '3']] false = [['#', ' ', '3']] := by decide

/-- C2, amended: for every heading text matching `digits`, an optional
period, then a mandatory whitespace character, the assigned level is never
1 — regardless of the title-found flag — and is exactly 2 when no deeper
numeric pattern (`X.Y`) matches.  A bare integer with no following
whitespace matches no numeric pattern and falls through to the title rule. -/
theorem numeric_heading_never_title (cs : List Char) (tf : Bool)
    (h : matchNumSection (trimList cs) = true) :
    detect_heading_level cs tf ≠ 1 ∧
    (matchD2 (trimList cs) = false → detect_heading_level cs tf = 2) := by
  constructor
  · by_cases h3 : matchD3 (trimList cs) = true
    · simp [detect_heading_level, h3]
    · by_cases h2 : matchD2 (trimList cs) = true
      · simp [detect_heading_level, h3, h2]
      · simp only [Bool.not_eq_true] at h3 h2
        simp [detect_heading_level, h3, h2, h]
  · intro h2f
    have h3f : matchD3 (trimList cs) = false := by
      cases h3 : matchD3 (trimList cs) with
      | false => rfl
      | true => rw [matchD3_matchD2 _ h3] at h2f; cases h2f
    simp [detect_heading_level, h3f, h2f, h]

/-- C2, witness for the amended theorem at a concrete input. -/
theorem numeric_heading_never_title_witness :
    matchNumSection (trimList ['3', ' ', 'A']) = true ∧
    detect_heading_level ['3', ' ', 'A'] false = 2 :=
  ⟨by decide, (numeric_heading_never_title ['3', ' ', 'A'] false (by decide)).2 (by decide)⟩

/-- C7: `evaluate_structure` reports an equation count equal to the number
of `$$` occurrences integer-divided by two, and validity exactly when that
number is even, recording an issue when it is odd; on
`"$$x=1$$\n$$y=2"` it reports count 1 and an invalid, recorded issue. -/
theorem equation_check_spec (md : List Char) :
    (evaluate_structure md).equation_count = countDD md / 2 ∧
    ((evaluate_structure md).equation_valid = true ↔ Even (countDD md)) ∧
    ((evaluate_structure md).equation_valid = false →
      Issue.equationOdd ∈ (evaluate_structure md).issues) ∧
    (evaluate_structure (String.toList "$$x=1$$\n$$y=2")).equation_count = 1 ∧
    (evaluate_structure (String.toList "$$x=1$$\n$$y=2")).equation_valid = false ∧
    Issue.equationOdd ∈ (evaluate_structure (String.toList "$$x=1$$\n$$y=2")).issues := by
  refine ⟨rfl, ?_, ?_, by decide, by decide, by decide⟩
  · show ((countDD md % 2 == 0) = true ↔ Even (countDD md))
    simp [Nat.even_iff]
  · intro hv
    have hodd : (countDD md % 2 == 0) = false := hv
    show Issue.equationOdd ∈ _ ++ _ ++ (if countDD md % 2 == 0 then [] else [Issue.equationOdd])
    rw [hodd]
    simp

/-- C7, witness for the recorded-issue implication at a concrete input. -/
theorem equation_check_spec_witness :
    Issue.equationOdd ∈ (evaluate_structure (String.toList "$$x=1$$\n$$y=2")).issues :=
  (equation_check_spec (String.toList "$$x=1$$\n$$y=2")).2.2.1 (by decide)

/-- C8: without a configured credential, `evaluate_semantic` returns a
zero-scored failing report whose issues name the missing configuration,
and makes no outbound call; the result does not depend on the
collaborator. -/
theorem evaluate_semantic_no_key (apiKey : Option (List Char))
    (llm : List Char → LLMOutcome) (silver_md : List Char) (max_chars : Nat)
    (h : isConfigured apiKey = false) :
    (evaluate_semantic apiKey llm silver_md max_chars).2 = 0 ∧
    ((evaluate_semantic apiKey llm silver_md max_chars).1).structure_score = some 0 ∧
    ((evaluate_semantic apiKey llm silver_md max_chars).1).completeness_score = some 0 ∧
    ((evaluate_semantic apiKey llm silver_md max_chars).1).coherence_score = some 0 ∧
    ((evaluate_semantic apiKey llm silver_md max_chars).1).overall_score = some 0 ∧
    ((evaluate_semantic apiKey llm silver_md max_chars).1).pass = false ∧
    "UPSTAGE_API_KEY not configured" ∈ ((evaluate_semantic apiKey llm silver_md max_chars).1).issues ∧
    (∀ llm' : List Char → LLMOutcome,
      evaluate_semantic apiKey llm' silver_md max_chars =
        evaluate_semantic apiKey llm silver_md max_chars) := by
  simp [evaluate_semantic, h]

/-- C8, witness at a concrete unconfigured input. -/
theorem evaluate_semantic_no_key_witness :
    (evaluate_semantic none (fun _ => LLMOutcome.parseError "") [] 3000).2 = 0 ∧
    "UPSTAGE_API_KEY not configured" ∈
      ((evaluate_semantic none (fun _ => LLMOutcome.parseError "") [] 3000).1).issues :=
  ⟨(evaluate_semantic_no_key none (fun _ => LLMOutcome.parseError "") [] 3000 rfl).1,
   (evaluate_semantic_no_key none (fun _ => LLMOutcome.parseError "") [] 3000 rfl).2.2.2.2.2.2.1⟩

/-- C9: `curate` reports overall pass as the conjunction of the three
sub-report pass flags, and selects its recommendation in priority order:
all three pass, else structural and text pass, else revision needed. -/
theorem curate_pass_and_recommendation (apiKey : Option (List Char))
    (llm : List Char → LLMOutcome) (jiwerO : Option (List Char → List Char → Rat × Rat))
    (silver_md : List Char) (original : Option (List Char)) :
    (curate apiKey llm jiwerO silver_md original).pass =
      ((evaluate_text_quality jiwerO silver_md original).pass &&
        (evaluate_structure silver_md).pass &&
        ((evaluate_semantic apiKey llm silver_md 3000).1).pass) ∧
    (curate apiKey llm jiwerO silver_md original).recommendation =
      (if (evaluate_text_quality jiwerO silver_md original).pass &&
          (evaluate_structure silver_md).pass &&
          ((evaluate_semantic apiKey llm silver_md 3000).1).pass then
        "청킹 가능 - 모든 검사 통과"
      else if (evaluate_structure silver_md).pass &&
          (evaluate_text_quality jiwerO silver_md original).pass then
        "청킹 가능 - 의미론적 검토 권장"
      else "수정 필요 - 구조/텍스트 문제 발견") :=
  ⟨rfl, rfl⟩

theorem headingLevels_filter (ls : List (List Char)) :
    headingLevels (ls.filter fun l => decide (markerLen l ≤ 4)) = headingLevels ls := by
  induction ls with
  | nil => rfl
  | cons l t ih =>
    by_cases h4 : markerLen l ≤ 4
    · by_cases h1 : 1 ≤ markerLen l
      · simp [List.filter_cons, h4, headingLevels, List.filterMap_cons, h1, ih,
          headingLevels] at ih ⊢
        exact ih
      · simp [List.filter_cons, h4, headingLevels, List.filterMap_cons, h1] at ih ⊢
        exact ih
    · have hf : ¬(1 ≤ markerLen l ∧ markerLen l ≤ 4) := fun hc => h4 hc.2
      simp [List.filter_cons, h4, headingLevels, List.filterMap_cons, hf] at ih ⊢
      exact ih

theorem mem_headingLevels_bounds (ls : List (List Char)) (k : Nat)
    (hk : k ∈ headingLevels ls) : 1 ≤ k ∧ k ≤ 4 := by
  unfold headingLevels at hk
  rw [List.mem_filterMap] at hk
  obtain ⟨l, _, hf⟩ := hk
  split at hf
  · rename_i hc
    cases hf
    exact hc
  · cases hf

/-- C10: only headings of marker depth at most 4 contribute to the heading
sequence of `evaluate_structure`: filtering deeper lines out changes
nothing, every recorded depth lies in `[1,4]`, and a depth-2 heading
directly followed by a depth-5 line leaves the order valid and the counts
untouched. -/
theorem deep_headings_ignored (md : List Char) :
    headingLevels ((splitLines md).filter fun l => decide (markerLen l ≤ 4)) =
      headingLevels (splitLines md) ∧
    (∀ k ∈ headingLevels (splitLines md), 1 ≤ k ∧ k ≤ 4) ∧
    (evaluate_structure (String.toList "## a\n##### b")).heading_order_valid = true ∧
    (evaluate_structure (String.toList "## a\n##### b")).heading_count = ⟨0, 1, 0, 0⟩ := by
  refine ⟨headingLevels_filter _, ?_, by decide, by decide⟩
  intro k hk
  exact mem_headingLevels_bounds _ _ hk

/-- C10, witness: the depth of the surviving heading of the example lies
in the recorded range. -/
theorem deep_headings_ignored_witness :
    2 ∈ headingLevels (splitLines (String.toList "## a\n##### b")) ∧ (1 ≤ 2 ∧ 2 ≤ 4) :=
  ⟨by decide, (deep_headings_ignored (String.toList "## a\n##### b")).2.1 2 (by decide)⟩

theorem firstJump_isSome_iff (l : List Nat) :
    (firstJump l).isSome = true ↔
      ∃ i a b, l[i]? = some a ∧ l[i + 1]? = some b ∧ a + 1 < b := by
  induction l with
  | nil =>
    constructor
    · intro h; simp [firstJump] at h
    · rintro ⟨i, a, b, h1, _, _⟩
      simp at h1
  | cons x t ih =>
    cases t with
    | nil =>
      constructor
      · intro h; simp [firstJump] at h
      · rintro ⟨i, a, b, h1, h2, _⟩
        rcases i with _ | j
        · simp at h2
        · simp at h1
    | cons y t' =>
      by_cases hxy : x + 1 < y
      · constructor
        · intro _
          exact ⟨0, x, y, by simp, by simp, hxy⟩
        · intro _
          simp [firstJump, hxy]
      · have heq : firstJump (x :: y :: t') = firstJump (y :: t') := by
          simp [firstJump, hxy]
        rw [heq, ih]
        constructor
        · rintro ⟨i, a, b, h1, h2, h3⟩
          exact ⟨i + 1, a, b, by simpa using h1, by simpa using h2, h3⟩
        · rintro ⟨i, a, b, h1, h2, h3⟩
          rcases i with _ | j
          · simp only [List.getElem?_cons_zero, Option.some.injEq] at h1
            simp only [List.getElem?_cons_succ, List.getElem?_cons_zero,
              Option.some.injEq] at h2
            subst h1; subst h2
            exact absurd h3 hxy
          · exact ⟨j, a, b, by simpa using h1, by simpa using h2, h3⟩

theorem structure_issues_eq (md : List Char) :
    (evaluate_structure md).issues =
      (match firstJump (headingLevels (splitLines md)) with
       | some (a, b) => [Issue.headingJump a b] | none => []) ++
      (match tableCheck ((splitLines md).filter fun l => (trimList l).head? == some '|') with
       | some (a, b) => [Issue.tableMismatch a b] | none => []) ++
      (if countDD md % 2 == 0 then [] else [Issue.equationOdd]) := rfl

theorem structure_order_valid_eq (md : List Char) :
    (evaluate_structure md).heading_order_valid =
      (firstJump (headingLevels (splitLines md))).isNone := rfl

/-- C6: `evaluate_structure` flags the heading order as invalid exactly
when some adjacent pair of recorded depths jumps forward by more than one
level (backward drops are never flagged, being excluded by the
characterisation); the first offending transition is recorded as an issue,
and at most one heading-jump issue is ever recorded. -/
theorem heading_order_check_spec (md : List Char) :
    ((evaluate_structure md).heading_order_valid = false ↔
      ∃ i a b, (headingLevels (splitLines md))[i]? = some a ∧
        (headingLevels (splitLines md))[i + 1]? = some b ∧ a + 1 < b) ∧
    (∀ a b, firstJump (headingLevels (splitLines md)) = some (a, b) →
      Issue.headingJump a b ∈ (evaluate_structure md).issues) ∧
    List.countP isJumpIssue (evaluate_structure md).issues ≤ 1 := by
  refine ⟨?_, ?_, ?_⟩
  · rw [← firstJump_isSome_iff, structure_order_valid_eq]
    cases firstJump (headingLevels (splitLines md)) <;> simp
  · intro a b hj
    rw [structure_issues_eq, hj]
    simp
  · rw [structure_issues_eq]
    rcases firstJump (headingLevels (splitLines md)) with _ | ⟨a, b⟩ <;>
      rcases tableCheck ((splitLines md).filter fun l => (trimList l).head? == some '|')
        with _ | ⟨c, d⟩ <;>
      cases he : (countDD md % 2 == 0) <;>
        simp [List.countP_append, List.countP_cons, isJumpIssue]

/-- C6, witness: on `"## a\n#### b"` the offending transition `H2 -> H4`
is recorded as an issue. -/
theorem heading_order_check_spec_witness :
    Issue.headingJump 2 4 ∈ (evaluate_structure (String.toList "## a\n#### b")).issues :=
  (heading_order_check_spec (String.toList "## a\n#### b")).2.1 2 4 (by decide)

/-! ## Lemmas about line splitting and joining -/

theorem splitLines_ne_nil (cs : List Char) : splitLines cs ≠ [] := by
  induction cs with
  | nil => simp [splitLines]
  | cons c rest ih =>
    unfold splitLines
    by_cases hc : c = '\n'
    · simp [hc]
    · rw [if_neg hc]
      cases hr : splitLines rest with
      | nil => simp
      | cons h t => simp

theorem mem_splitLines_no_newline (cs : List Char) :
    ∀ l ∈ splitLines cs, '\n' ∉ l := by
  induction cs with
  | nil =>
    intro l hl
    simp [splitLines] at hl
    simp [hl]
  | cons c rest ih =>
    intro l hl
    unfold splitLines at hl
    by_cases hc : c = '\n'
    · rw [if_pos hc, List.mem_cons] at hl
      rcases hl with hl | hl
      · simp [hl]
      · exact ih l hl
    · rw [if_neg hc] at hl
      cases hr : splitLines rest with
      | nil => exact absurd hr (splitLines_ne_nil rest)
      | cons h t =>
        rw [hr, List.mem_cons] at hl
        rcases hl with hl | hl
        · intro hmem
          rw [hl, List.mem_cons] at hmem
          rcases hmem with hmem | hmem
          · exact hc hmem.symm
          · exact ih h (by rw [hr]; exact List.mem_cons_self h t) hmem
        · exact ih l (by rw [hr]; exact List.mem_cons_of_mem h hl)

theorem splitLines_append (a cs : List Char) (h : List Char) (t : List (List Char))
    (hnl : '\n' ∉ a) (hcs : splitLines cs = h :: t) :
    splitLines (a ++ cs) = (a ++ h) :: t := by
  induction a with
  | nil => simpa using hcs
  | cons x a' ih =>
    have hx : x ≠ '\n' := fun hc => hnl (by rw [hc]; exact List.mem_cons_self _ _)
    have ih' := ih (fun hm => hnl (List.mem_cons_of_mem x hm))
    show splitLines (x :: (a' ++ cs)) = (x :: (a' ++ h)) :: t
    unfold splitLines
    rw [if_neg hx, ih']

theorem splitLines_no_newline (l : List Char) (hnl : '\n' ∉ l) :
    splitLines l = [l] := by
  have := splitLines_append l [] [] [] hnl (by simp [splitLines])
  simpa using this

theorem splitLines_joinLines (ls : List (List Char)) (hne : ls ≠ [])
    (hnl : ∀ l ∈ ls, '\n' ∉ l) : splitLines (joinLines ls) = ls := by
  induction ls with
  | nil => exact absurd rfl hne
  | cons l ls' ih =>
    cases ls' with
    | nil =>
      show splitLines (joinLines [l]) = [l]
      exact splitLines_no_newline l (hnl l (List.mem_cons_self _ _))
    | cons m ls'' =>
      have hjoin : joinLines (l :: m :: ls'') = l ++ '\n' :: joinLines (m :: ls'') := rfl
      rw [hjoin]
      have hrec : splitLines (joinLines (m :: ls'')) = m :: ls'' :=
        ih (by simp) (fun x hx => hnl x (List.mem_cons_of_mem l hx))
      have hmid : splitLines ('\n' :: joinLines (m :: ls'')) = [] :: m :: ls'' := by
        unfold splitLines
        rw [if_pos rfl, hrec]
      have := splitLines_append l ('\n' :: joinLines (m :: ls'')) [] (m :: ls'')
        (hnl l (List.mem_cons_self _ _)) hmid
      simpa using this

/-! ## Lemmas about `processLine` and `refineLines` -/

theorem refineLines_cons (l : List Char) (ls : List (List Char)) (tf : Bool) :
    refineLines (l :: ls) tf = (processLine l tf).1 :: refineLines ls (processLine l tf).2 := rfl

theorem processLine_of_not_heading (l : List Char) (tf : Bool)
    (h : ¬(l.head? = some '#' ∧ 2 ≤ l.length)) : processLine l tf = (l, tf) := by
  unfold processLine
  rw [if_neg h]

theorem processLine_transformed (l : List Char) (tf : Bool)
    (h : l.head? = some '#') (h2 : 2 ≤ l.length) :
    processLine l tf =
      (List.replicate (detect_heading_level (headingText l) tf) '#' ++ ' ' :: headingText l,
       tf || (detect_heading_level (headingText l) tf == 1)) := by
  unfold processLine
  rw [if_pos ⟨h, h2⟩]

theorem refineLines_length (ls : List (List Char)) (tf : Bool) :
    (refineLines ls tf).length = ls.length := by
  induction ls generalizing tf with
  | nil => rfl
  | cons l ls' ih =>
    rw [refineLines_cons]
    simp [ih]

theorem mem_of_mem_dropWhile (p : Char → Bool) (l : List Char) (a : Char)
    (h : a ∈ l.dropWhile p) : a ∈ l := by
  induction l with
  | nil => simp at h
  | cons x t ih =>
    by_cases hp : p x = true
    · rw [List.dropWhile_cons, if_pos hp] at h
      exact List.mem_cons_of_mem x (ih h)
    · rw [List.dropWhile_cons, if_neg hp] at h
      exact h

theorem mem_of_mem_trimList (a : Char) (l : List Char) (h : a ∈ trimList l) : a ∈ l := by
  unfold trimList at h
  rw [List.mem_reverse] at h
  have h2 := mem_of_mem_dropWhile _ _ _ h
  rw [List.mem_reverse] at h2
  exact mem_of_mem_dropWhile _ _ _ h2

theorem mem_of_mem_headingText (a : Char) (l : List Char) (h : a ∈ headingText l) :
    a = '#' ∨ a ∈ l := by
  unfold headingText at h
  split at h
  · rw [List.mem_singleton] at h
    exact Or.inl h
  · exact Or.inr (mem_of_mem_dropWhile _ _ _ (mem_of_mem_trimList _ _ h))

theorem processLine_no_newline (l : List Char) (tf : Bool) (h : '\n' ∉ l) :
    '\n' ∉ (processLine l tf).1 := by
  by_cases hm : l.head? = some '#' ∧ 2 ≤ l.length
  · rw [processLine_transformed l tf hm.1 hm.2]
    intro hmem
    rcases List.mem_append.1 hmem with hx | hx
    · exact absurd (List.eq_of_mem_replicate hx) (by decide)
    · rw [List.mem_cons] at hx
      rcases hx with hx | hx
      · exact absurd hx (by decide)
      · rcases mem_of_mem_headingText _ _ hx with hq | hq
        · exact absurd hq (by decide)
        · exact h hq
  · rw [processLine_of_not_heading l tf hm]
    exact h

theorem refineLines_no_newline (ls : List (List Char)) (tf : Bool)
    (h : ∀ l ∈ ls, '\n' ∉ l) : ∀ l' ∈ refineLines ls tf, '\n' ∉ l' := by
  induction ls generalizing tf with
  | nil => intro l' hl'; simp [refineLines, refineAux] at hl'
  | cons l ls' ih =>
    intro l' hl'
    rw [refineLines_cons, List.mem_cons] at hl'
    rcases hl' with hl' | hl'
    · rw [hl']
      exact processLine_no_newline l tf (h l (List.mem_cons_self _ _))
    · exact ih _ (fun x hx => h x (List.mem_cons_of_mem l hx)) l' hl'

theorem refineLines_getElem_nonheading (ls : List (List Char)) (tf : Bool) (i : Nat)
    (l : List Char) (h1 : ls[i]? = some l) (h2 : ¬l.head? = some '#') :
    (refineLines ls tf)[i]? = some l := by
  induction ls generalizing tf i with
  | nil => simp at h1
  | cons x ls' ih =>
    rw [refineLines_cons]
    rcases i with _ | j
    · simp only [List.getElem?_cons_zero, Option.some.injEq] at h1
      subst h1
      rw [processLine_of_not_heading x tf (fun hc => h2 hc.1)]
      simp
    · simp only [List.getElem?_cons_succ] at h1 ⊢
      exact ih _ j h1

/-! ## Claims C3, C4, C5 -/

/-- C3: `refine_headings` preserves the number of lines exactly, and every
line that does not start with `#` appears verbatim at the same position in
the output. -/
theorem refine_headings_preserves_lines (md : List Char) :
    (splitLines (refine_headings md)).length = (splitLines md).length ∧
    ∀ (i : Nat) (l : List Char), (splitLines md)[i]? = some l → ¬l.head? = some '#' →
      (splitLines (refine_headings md))[i]? = some l := by
  have hne : refineLines (splitLines md) false ≠ [] := by
    intro hnil
    have hlen := refineLines_length (splitLines md) false
    rw [hnil] at hlen
    cases hmd : splitLines md with
    | nil => exact splitLines_ne_nil md hmd
    | cons h t => rw [hmd] at hlen; simp at hlen
  have hkey : splitLines (refine_headings md) = refineLines (splitLines md) false := by
    unfold refine_headings
    exact splitLines_joinLines _ hne
      (refineLines_no_newline _ _ (mem_splitLines_no_newline md))
  constructor
  · rw [hkey]
    exact refineLines_length _ _
  · intro i l h1 h2
    rw [hkey]
    exact refineLines_getElem_nonheading _ _ _ _ h1 h2

/-- C3, witness: in `"# T\nbody"` the non-heading line `"body"` survives
at position 1. -/
theorem refine_headings_preserves_lines_witness :
    (splitLines (refine_headings (String.toList "# T\nbody")))[1]? =
      some (String.toList "body") :=
  (refine_headings_preserves_lines (String.toList "# T\nbody")).2 1
    (String.toList "body") (by decide) (by decide)

/-- C4, counterexample: heading lines are not preserved beyond the marker
depth: on `"# Hi "` the detected depth stays 1, yet the trailing
whitespace of the text is stripped, and on `"#  Abstract"` the two spaces
after the marker are collapsed to one. -/
theorem refine_headings_normalizes_whitespace :
    refineLines [String.toList "# Hi "] false = [String.toList "# Hi"] ∧
    String.toList "# Hi" ≠ String.toList "# Hi " ∧
    refineLines [String.toList "#  Abstract"] false = [String.toList "## Abstract"] ∧
    String.toList "## Abstract" ≠ String.toList "##  Abstract" := by decide

/-- C4, amended: for every heading line matched by the pattern — a line
starting with `#` and at least two characters long, including all-`#`
lines, where backtracking yields a single `#` as the text — the output
line at the same position is the marker of the detected depth (between 1
and 4), a single space, and the matched heading text stripped of
surrounding whitespace — so the marker depth is rewritten and the spacing
is normalised, while the stripped text itself is unchanged; other lines
are untouched. -/
theorem refine_headings_heading_shape (ls : List (List Char)) (tf : Bool) (i : Nat)
    (l : List Char) (h1 : ls[i]? = some l) (h2 : l.head? = some '#')
    (h3 : 2 ≤ l.length) :
    1 ≤ detect_heading_level (headingText l) ((refineAux (ls.take i) tf).2) ∧
    detect_heading_level (headingText l) ((refineAux (ls.take i) tf).2) ≤ 4 ∧
    (refineLines ls tf)[i]? =
      some (List.replicate (detect_heading_level (headingText l)
          ((refineAux (ls.take i) tf).2)) '#' ++ ' ' :: headingText l) := by
  refine ⟨(detect_heading_level_range _ _).1, (detect_heading_level_range _ _).2, ?_⟩
  revert h1
  induction ls generalizing i tf with
  | nil => intro h1; simp at h1
  | cons x ls' ih =>
    intro h1
    rw [refineLines_cons]
    rcases i with _ | j
    · simp only [List.getElem?_cons_zero, Option.some.injEq] at h1
      subst h1
      rw [processLine_transformed _ tf h2 h3]
      simp [refineAux]
    · simp only [List.getElem?_cons_succ] at h1 ⊢
      have := ih (processLine x tf).2 j h1
      simpa [refineAux, List.take_succ_cons] using this

/-- C4, witness for the amended theorem at a concrete input. -/
theorem refine_headings_heading_shape_witness :
    (refineLines [String.toList "#  Abstract"] false)[0]? =
      some (List.replicate (detect_heading_level (headingText (String.toList "#  Abstract"))
          ((refineAux (([String.toList "#  Abstract"]).take 0) false).2)) '#' ++
        ' ' :: headingText (String.toList "#  Abstract")) :=
  (refine_headings_heading_shape [String.toList "#  Abstract"] false 0
    (String.toList "#  Abstract") (by decide) (by decide) (by decide)).2.2

theorem isH1line_iff (l : List Char) :
    isH1line l = true ↔ ∃ t, l = '#' :: ' ' :: t := by
  unfold isH1line
  cases l with
  | nil => simp
  | cons a l' =>
    cases l' with
    | nil => simp
    | cons b l'' => simp [List.take]

theorem isH1line_replicate (lvl : Nat) (c : List Char) (h : lvl ≠ 1) :
    isH1line (List.replicate lvl '#' ++ ' ' :: c) = false := by
  cases hi : isH1line (List.replicate lvl '#' ++ ' ' :: c) with
  | false => rfl
  | true =>
    rw [isH1line_iff] at hi
    obtain ⟨t, ht⟩ := hi
    rcases lvl with _ | _ | n
    · simp at ht
    · exact absurd rfl h
    · simp [List.replicate_succ] at ht

theorem processLine_snd_true (l : List Char) : (processLine l true).2 = true := by
  by_cases hm : l.head? = some '#' ∧ 2 ≤ l.length
  · rw [processLine_transformed l true hm.1 hm.2]
    rfl
  · rw [processLine_of_not_heading l true hm]

theorem refineAux_flag_permanent (ls : List (List Char)) : (refineAux ls true).2 = true := by
  induction ls with
  | nil => rfl
  | cons l ls' ih =>
    show (refineAux ls' (processLine l true).2).2 = true
    rw [processLine_snd_true l]
    exact ih

theorem processLine_true_not_H1 (l : List Char) :
    isH1line (processLine l true).1 = false := by
  by_cases hm : l.head? = some '#' ∧ 2 ≤ l.length
  · rw [processLine_transformed l true hm.1 hm.2]
    exact isH1line_replicate _ _ (detect_heading_level_ne_one (headingText l))
  · rw [processLine_of_not_heading l true hm]
    cases hi : isH1line l with
    | false => rfl
    | true =>
      rw [isH1line_iff] at hi
      obtain ⟨t, rfl⟩ := hi
      exact absurd ⟨rfl, Nat.le_add_left 2 t.length⟩ hm

theorem refineLines_true_countP (ls : List (List Char)) :
    List.countP isH1line (refineLines ls true) = 0 := by
  induction ls with
  | nil => rfl
  | cons l ls' ih =>
    rw [refineLines_cons, processLine_snd_true l, List.countP_cons,
      processLine_true_not_H1 l, ih]
    simp

theorem processLine_H1_flag (l : List Char) (tf : Bool)
    (h : isH1line (processLine l tf).1 = true) : (processLine l tf).2 = true := by
  by_cases hm : l.head? = some '#' ∧ 2 ≤ l.length
  · rw [processLine_transformed l tf hm.1 hm.2] at h ⊢
    show (tf || (detect_heading_level (headingText l) tf == 1)) = true
    cases hl : detect_heading_level (headingText l) tf with
    | zero =>
      have hr := (detect_heading_level_range (headingText l) tf).1
      rw [hl] at hr
      omega
    | succ m =>
      cases m with
      | zero => simp
      | succ n =>
        have hf : isH1line (List.replicate (detect_heading_level (headingText l) tf) '#' ++
            ' ' :: headingText l) = false := by
          rw [hl]
          exact isH1line_replicate _ _ (by omega)
        rw [hf] at h
        exact Bool.noConfusion h
  · rw [processLine_of_not_heading l tf hm] at h
    rw [isH1line_iff] at h
    obtain ⟨t, rfl⟩ := h
    exact absurd ⟨rfl, Nat.le_add_left 2 t.length⟩ hm

theorem countP_refineLines_false (ls : List (List Char)) :
    List.countP isH1line (refineLines ls false) ≤ 1 := by
  induction ls with
  | nil => simp [refineLines, refineAux]
  | cons l ls' ih =>
    rw [refineLines_cons, List.countP_cons]
    cases hf : (processLine l false).2 with
    | true =>
      rw [refineLines_true_countP ls']
      split <;> omega
    | false =>
      have hhead : isH1line (processLine l false).1 = false := by
        cases hi : isH1line (processLine l false).1 with
        | false => rfl
        | true =>
          rw [processLine_H1_flag l false hi] at hf
          exact Bool.noConfusion hf
      rw [hhead]
      simpa using ih

/-- C5: within a single `refine_headings` pass the title-found flag, once
true, stays true for the rest of the pass (it is never reset), no line is
assigned depth 1 after it is set, and starting from the initial `false`
flag at most one output line carries an assigned depth-1 marker. -/
theorem title_flag_permanent_single_title (ls : List (List Char)) :
    (refineAux ls true).2 = true ∧
    List.countP isH1line (refineLines ls true) = 0 ∧
    List.countP isH1line (refineLines ls false) ≤ 1 :=
  ⟨refineAux_flag_permanent ls, refineLines_true_countP ls, countP_refineLines_false ls⟩

end Silverforge
